import Mathlib

/-!
Verification model of the reference-counted, copy-on-write string class
`spica::RexxString` (src/RexxString.hpp, src/RexxString.cpp).

The development has two layers.

The first layer is a pure value model: each `const` text operation of the
class computes a fresh character buffer from the workspace of its operands,
and that computation is embedded as a function on `List Char` (the workspace
content, with the terminating null character left implicit).  Positions and
counts are `size_t` values; the only place where unsigned wrap-around
matters is the computation `offset = starting_position - 1`, modelled by
`sub1`.

The second layer is a state model of the reference-counting machinery: a
heap of `string_node` records (address = list index, `none` = freed) and a
table of live `RexxString` handles (index = object identity, entry = the
`rep` pointer, `none` = destroyed).  Each constructor, destructor,
assignment and mutating member is embedded as a state transformer that
performs the same pointer and count manipulations, in the same order, as
the C++ source.  Operations that allocate take a flag telling whether the
allocation succeeds, so that the out-of-memory branch of the source can be
examined: in the source every mutator allocates its new buffer before
releasing the old one, so a failed allocation leaves the state untouched.
-/

namespace SpicaRexx

/-- Model of `std::numeric_limits<std::size_t>::max()`: the value 2 ^ 64 - 1. -/
def SIZE_MAX : Nat := 18446744073709551615

/-- Model of the unsigned computation `size_t offset = starting_position - 1`
appearing in every position-taking method.  For every `starting_position` in
the `size_t` range this equals `(starting_position + 2 ^ 64 - 1) % 2 ^ 64`:
positions of at least one simply decrement, and position zero wraps around
to `SIZE_MAX`. -/
def sub1 (starting_position : Nat) : Nat :=
  if starting_position = 0 then SIZE_MAX else starting_position - 1

/-- The null character terminating every workspace buffer.  Workspace
content never contains it. -/
def nullChar : Char := Char.ofNat 0

namespace RexxString

/-- Value computed by `RexxString::substr( size_t, size_t )`
(RexxString.cpp:815-845): empty when the offset is off the end, otherwise
`count` characters starting at the offset, with `count` clamped to the
remaining length. -/
def substr (T : List Char) (starting_position count : Nat) : List Char :=
  let offset := sub1 starting_position
  let current_length := T.length
  if offset ≥ current_length then []
  else
    let count2 := if count > current_length - offset then current_length - offset else count
    (T.drop offset).take count2

/-- Value computed by `RexxString::erase( size_t, size_t )`
(RexxString.cpp:564-595): the original value when there is no work to do,
otherwise the value with `count` characters removed starting at the offset,
`count` clamped to the remaining length. -/
def erase (T : List Char) (starting_position count : Nat) : List Char :=
  let offset := sub1 starting_position
  let current_length := T.length
  if offset ≥ current_length ∨ count = 0 then T
  else
    let max_count := current_length - offset
    let count2 := if count > max_count then max_count else count
    T.take offset ++ T.drop (offset + count2)

/-- Value computed by `RexxString::insert( const RexxString &, size_t, size_t )`
(RexxString.cpp:614-643): the original value when the offset is strictly past
the end or `count` is zero, otherwise the first `count` (clamped) characters
of `incoming` placed before the offset. -/
def insert (T incoming : List Char) (starting_position count : Nat) : List Char :=
  let offset := sub1 starting_position
  let current_length := T.length
  if offset > current_length ∨ count = 0 then T
  else
    let incoming_length := incoming.length
    let count2 := if count > incoming_length then incoming_length else count
    T.take offset ++ incoming.take count2 ++ T.drop offset

/-- Value computed by `RexxString::left( size_t, char )`
(RexxString.cpp:452-483): the first `length` characters, right-padded with
`pad` when `length` exceeds the current length. -/
def left (T : List Char) (length : Nat) (pad : Char) : List Char :=
  let current_length := T.length
  if length < current_length then T.take length
  else T ++ List.replicate (length - current_length) pad

/-- Value computed by `RexxString::center( size_t, char )`
(RexxString.cpp:496-526): a `left` operation when the requested length does
not exceed the current length, otherwise the text between
`(length - current_length) / 2` pad characters on the left and the rest of
the padding on the right. -/
def center (T : List Char) (length : Nat) (pad : Char) : List Char :=
  let current_length := T.length
  if length ≤ current_length then left T length pad
  else
    let left_side := (length - current_length) / 2
    let right_side := length - current_length - left_side
    List.replicate left_side pad ++ T ++ List.replicate right_side pad

/-- Index of the first occurrence of `needle` found by `strchr` scanning a
null-terminated buffer whose content is `s`: the terminating null character
itself is a match when `needle` is the null character. -/
def strchrIdx (s : List Char) (needle : Char) : Option Nat :=
  match s with
  | [] => if needle = nullChar then some 0 else none
  | c :: rest => if c = needle then some 0 else (strchrIdx rest needle).map (· + 1)

/-- Value computed by `RexxString::pos( char, size_t )`
(RexxString.cpp:653-676): zero when the offset is strictly past the
terminating null, otherwise one plus the offset of the first occurrence of
`needle` (found by `strchr`, which can locate the terminating null), or
zero when there is none. -/
def pos (T : List Char) (needle : Char) (starting_position : Nat) : Nat :=
  let offset := sub1 starting_position
  if offset > T.length then 0
  else
    match strchrIdx (T.drop offset) needle with
    | none => 0
    | some i => offset + i + 1

end RexxString

/-- Model of `struct string_node` (RexxString.hpp): a reference count and
the owned workspace content (terminating null implicit). -/
structure StringNode where
  count : Nat
  workspace : List Char
deriving DecidableEq, Repr

/-- State of the reference-counting machinery: `heap` maps node addresses
(list indices) to allocated nodes (`none` = freed, addresses are never
reused), and `handles` maps `RexxString` object identities to the node
address stored in their `rep` member (`none` = destroyed object). -/
structure StrState where
  heap : List (Option StringNode)
  handles : List (Option Nat)
deriving DecidableEq, Repr

/-- The node address stored in the `rep` member of handle `h`. -/
def nidOf (st : StrState) (h : Nat) : Option Nat :=
  (st.handles[h]?).getD none

/-- The node currently allocated at address `nid`, if any. -/
def nodeAt (st : StrState) (nid : Nat) : Option StringNode :=
  (st.heap[nid]?).getD none

/-- The workspace content observed through handle `h`. -/
def valOf (st : StrState) (h : Nat) : Option (List Char) :=
  match nidOf st h with
  | some nid => (nodeAt st nid).map StringNode.workspace
  | none => none

/-- Number of handles whose `rep` member holds address `nid`. -/
def countRefs (st : StrState) (nid : Nat) : Nat :=
  st.handles.count (some nid)

/-- The release pattern shared by the destructor and by every operation
that drops a buffer reference (RexxString.cpp:244-248 and the identical
blocks in the assignment operators and mutators):
`if( rep->count > 1 ) rep->count--; else { delete [] rep->workspace; delete rep; }`. -/
def releaseRep (heap : List (Option StringNode)) (nid : Nat) : List (Option StringNode) :=
  match (heap[nid]?).getD none with
  | some node =>
      if node.count > 1 then heap.set nid (some { node with count := node.count - 1 })
      else heap.set nid none
  | none => heap

/-- `RexxString::RexxString( const RexxString & )` (RexxString.cpp:204-212):
`rep = existing.rep; rep->count++;` and a new handle comes into existence. -/
def copyConstruct (st : StrState) (src : Nat) : StrState :=
  match nidOf st src with
  | some nid =>
      match nodeAt st nid with
      | some node =>
          { heap := st.heap.set nid (some { node with count := node.count + 1 }),
            handles := st.handles ++ [some nid] }
      | none => st
  | none => st

/-- `RexxString::~RexxString( )` (RexxString.cpp:238-249): release the
referenced node and remove the handle. -/
def destruct (st : StrState) (h : Nat) : StrState :=
  match nidOf st h with
  | some nid =>
      { heap := releaseRep st.heap nid, handles := st.handles.set h none }
  | none => st

/-- `RexxString::operator=( const RexxString & )` (RexxString.cpp:252-270):
self-assignment check, release of the old node, then adoption of the
source node with an incremented count. -/
def assignRexx (st : StrState) (dst src : Nat) : StrState :=
  if dst = src then st
  else
    match nidOf st dst, nidOf st src with
    | some dnid, some snid =>
        match ((releaseRep st.heap dnid)[snid]?).getD none with
        | some snode =>
            { heap := (releaseRep st.heap dnid).set snid
                (some { snode with count := snode.count + 1 }),
              handles := st.handles.set dst (some snid) }
        | none => st
    | _, _ => st

/-- `RexxString::operator=( const char * )` (RexxString.cpp:273-292): a null
source pointer returns immediately with nothing changed and no error;
otherwise a new node holding a copy of the text is allocated *before* the
old node is released.  The boolean argument tells whether the allocation
succeeds; the boolean result is false exactly when `std::bad_alloc`
propagates, in which case nothing has been modified yet. -/
def assignCString (st : StrState) (h : Nat) (other : Option (List Char))
    (allocOk : Bool) : StrState × Bool :=
  match other with
  | none => (st, true)
  | some text =>
      match nidOf st h with
      | some nid =>
          if allocOk then
            ({ heap := releaseRep (st.heap ++ [some { count := 1, workspace := text }]) nid,
               handles := st.handles.set h (some st.heap.length) }, true)
          else (st, false)
      | none => (st, false)

/-- `RexxString::append( char )` (RexxString.cpp:355-376): a new node
holding the old content followed by `c` is allocated *before* the old node
is released; the handle then adopts the new node.  The boolean argument and
result model allocation failure as in `assignCString`. -/
def appendChar (st : StrState) (h : Nat) (c : Char) (allocOk : Bool) : StrState × Bool :=
  match nidOf st h with
  | some nid =>
      match nodeAt st nid with
      | some node =>
          if allocOk then
            ({ heap := releaseRep
                 (st.heap ++ [some { count := 1, workspace := node.workspace ++ [c] }]) nid,
               handles := st.handles.set h (some st.heap.length) }, true)
          else (st, false)
      | none => (st, false)
  | none => (st, false)

/-- `RexxString::append( const RexxString & )` (RexxString.cpp:309-329):
both workspaces are read and the concatenation is placed in a freshly
allocated node *before* the old node is released. -/
def appendRexx (st : StrState) (h src : Nat) (allocOk : Bool) : StrState × Bool :=
  match nidOf st h, nidOf st src with
  | some nid, some snid =>
      match nodeAt st nid, nodeAt st snid with
      | some node, some snode =>
          if allocOk then
            ({ heap := releaseRep
                 (st.heap ++ [some { count := 1, workspace := node.workspace ++ snode.workspace }])
                 nid,
               handles := st.handles.set h (some st.heap.length) }, true)
          else (st, false)
      | _, _ => (st, false)
  | _, _ => (st, false)

/-- `RexxString::erase( )` (RexxString.cpp:383-399): a new empty node is
allocated *before* the old node is released. -/
def eraseEmpty (st : StrState) (h : Nat) (allocOk : Bool) : StrState × Bool :=
  match nidOf st h with
  | some nid =>
      if allocOk then
        ({ heap := releaseRep (st.heap ++ [some { count := 1, workspace := [] }]) nid,
           handles := st.handles.set h (some st.heap.length) }, true)
      else (st, false)
  | none => (st, false)

/-- `operator==( const RexxString &, const RexxString & )`
(RexxString.cpp:126-135): true immediately when the two handles share one
node, otherwise a `strcmp` of the two workspaces. -/
def rexxEq (st : StrState) (a b : Nat) : Bool :=
  match nidOf st a, nidOf st b with
  | some na, some nb =>
      if na = nb then true
      else
        match nodeAt st na, nodeAt st nb with
        | some nodeA, some nodeB => decide (nodeA.workspace = nodeB.workspace)
        | _, _ => false
  | _, _ => false

/-- Check of the reference-count invariant at one node address: if a node
is allocated there, its `count` member equals the number of handles whose
`rep` points at it, and is at least one. -/
def nodeOKb (st : StrState) (nid : Nat) : Bool :=
  match nodeAt st nid with
  | some node => decide (node.count = countRefs st nid) && decide (1 ≤ node.count)
  | none => true

/-- The reference-count invariant: every live node is counted correctly
and referenced by at least one handle. -/
def RefOK (st : StrState) : Prop :=
  ∀ nid, nodeOKb st nid = true

/-- Concrete two-handle state used to exercise the state-model theorems:
two live strings with private buffers. -/
def demoState : StrState :=
  { heap := [some { count := 1, workspace := "hi".toList },
             some { count := 1, workspace := "yo".toList }],
    handles := [some 0, some 1] }

/-- Concrete state with a shared buffer: handles 0 and 1 share node 0
(count two), handle 2 owns node 1 alone. -/
def demoShared : StrState :=
  { heap := [some { count := 2, workspace := "hi".toList },
             some { count := 1, workspace := [] }],
    handles := [some 0, some 0, some 1] }

/-! Generic list lemmas used to reason about the heap and handle tables. -/

lemma getD_set_self {α : Type} (l : List α) (i : Nat) (x d : α) (h : i < l.length) :
    ((l.set i x)[i]?).getD d = x := by
  rw [List.getElem?_set_eq_of_lt x h]
  rfl

lemma getD_set_ne {α : Type} (l : List α) (i j : Nat) (x d : α) (h : i ≠ j) :
    ((l.set i x)[j]?).getD d = (l[j]?).getD d := by
  rw [List.getElem?_set_ne h]

lemma getD_append_left {α : Type} (l l2 : List α) (i : Nat) (d : α) (h : i < l.length) :
    ((l ++ l2)[i]?).getD d = (l[i]?).getD d := by
  rw [List.getElem?_append_left h]

lemma getD_append_len {α : Type} (l : List α) (x d : α) :
    ((l ++ [x])[l.length]?).getD d = x := by
  rw [List.getElem?_append_right (Nat.le_refl _)]
  simp

lemma getD_none_of_le {α : Type} (l : List α) (i : Nat) (d : α) (h : l.length ≤ i) :
    (l[i]?).getD d = d := by
  rw [List.getElem?_eq_none h]
  rfl

lemma getD_some_elim {α : Type} (l : List (Option α)) (i : Nat) (x : α)
    (h : (l[i]?).getD none = some x) : l[i]? = some (some x) := by
  cases hg : l[i]? with
  | none => rw [hg] at h; cases h
  | some o => rw [hg] at h; simp at h; subst h; rfl

lemma lt_length_of_getD_some {α : Type} (l : List (Option α)) (i : Nat) (x : α)
    (h : (l[i]?).getD none = some x) : i < l.length := by
  by_contra hc
  rw [getD_none_of_le l i none (Nat.le_of_not_lt hc)] at h
  cases h

lemma count_append_single (l : List (Option Nat)) (x a : Option Nat) :
    (l ++ [x]).count a = l.count a + (if x == a then 1 else 0) := by
  rw [List.count_append]
  simp [List.count_cons]

lemma count_set_eq (l : List (Option Nat)) (i : Nat) (v w a : Option Nat)
    (hw : l[i]? = some w) :
    (l.set i v).count a + (if w == a then 1 else 0)
      = l.count a + (if v == a then 1 else 0) := by
  induction l generalizing i with
  | nil => cases hw
  | cons y t ih =>
    cases i with
    | zero =>
      rw [List.getElem?_cons_zero] at hw
      injection hw with hyw
      subst hyw
      simp only [List.set, List.count_cons]
      split_ifs <;> simp_all
    | succ n =>
      rw [List.getElem?_cons_succ] at hw
      have ihn := ih n hw
      simp only [List.set, List.count_cons]
      split_ifs <;> simp_all

lemma two_le_count (l : List (Option Nat)) (i j : Nat) (x : Option Nat)
    (hi : l[i]? = some x) (hj : l[j]? = some x) (hij : i ≠ j) :
    2 ≤ l.count x := by
  induction l generalizing i j with
  | nil => cases hi
  | cons y t ih =>
    cases i with
    | zero =>
      rw [List.getElem?_cons_zero] at hi
      injection hi with hyx
      subst hyx
      cases j with
      | zero => exact absurd rfl hij
      | succ m =>
        rw [List.getElem?_cons_succ] at hj
        have hmem : y ∈ t := List.getElem?_mem hj
        have hpos : 0 < t.count y := List.count_pos_iff.mpr hmem
        rw [List.count_cons_self]
        omega
    | succ n =>
      rw [List.getElem?_cons_succ] at hi
      cases j with
      | zero =>
        rw [List.getElem?_cons_zero] at hj
        injection hj with hyx
        subst hyx
        have hmem : y ∈ t := List.getElem?_mem hi
        have hpos : 0 < t.count y := List.count_pos_iff.mpr hmem
        rw [List.count_cons_self]
        omega
      | succ m =>
        rw [List.getElem?_cons_succ] at hj
        have h2 := ih n m hi hj (fun hnm => hij (by rw [hnm]))
        rw [List.count_cons]
        omega

/-! Helper lemmas about the state model. -/

lemma nodeOKb_iff (st : StrState) (nid : Nat) :
    nodeOKb st nid = true ↔
      ∀ node, nodeAt st nid = some node →
        node.count = countRefs st nid ∧ 1 ≤ node.count := by
  unfold nodeOKb
  cases h : nodeAt st nid with
  | none => simp
  | some node => simp

lemma refOK_elim (st : StrState) (nid : Nat) (node : StringNode) (hinv : RefOK st)
    (hn : nodeAt st nid = some node) :
    node.count = countRefs st nid ∧ 1 ≤ node.count :=
  (nodeOKb_iff st nid).mp (hinv nid) node hn

lemma refOK_of_forall_lt (st : StrState)
    (h : ∀ nid, nid < st.heap.length → nodeOKb st nid = true) : RefOK st := by
  intro nid
  by_cases hlt : nid < st.heap.length
  · exact h nid hlt
  · unfold nodeOKb nodeAt
    rw [getD_none_of_le _ _ _ (Nat.le_of_not_lt hlt)]

lemma valOf_elim (st : StrState) (a : Nat) (va : List Char) (h : valOf st a = some va) :
    ∃ na nodeA, nidOf st a = some na ∧ nodeAt st na = some nodeA ∧ nodeA.workspace = va := by
  cases hn : nidOf st a with
  | none => simp [valOf, hn] at h
  | some na =>
    cases hm : nodeAt st na with
    | none => simp [valOf, hn, hm] at h
    | some nodeA =>
      simp [valOf, hn, hm] at h
      exact ⟨na, nodeA, rfl, hm, h⟩

lemma valOf_intro (st : StrState) (a na : Nat) (nodeA : StringNode)
    (hn : nidOf st a = some na) (hm : nodeAt st na = some nodeA) :
    valOf st a = some nodeA.workspace := by
  simp [valOf, hn, hm]

lemma countRefs_two (st : StrState) (a b nid : Nat) (hab : a ≠ b)
    (ha : nidOf st a = some nid) (hb : nidOf st b = some nid) :
    2 ≤ countRefs st nid :=
  two_le_count st.handles a b (some nid) (getD_some_elim _ _ _ ha) (getD_some_elim _ _ _ hb) hab

lemma releaseRep_of_some (heap : List (Option StringNode)) (nid : Nat) (node : StringNode)
    (hg : (heap[nid]?).getD none = some node) :
    releaseRep heap nid =
      if node.count > 1 then heap.set nid (some { node with count := node.count - 1 })
      else heap.set nid none := by
  unfold releaseRep
  rw [hg]

lemma releaseRep_length (heap : List (Option StringNode)) (nid : Nat) :
    (releaseRep heap nid).length = heap.length := by
  cases h : (heap[nid]?).getD none with
  | none => unfold releaseRep; rw [h]
  | some node => rw [releaseRep_of_some heap nid node h]; split_ifs <;> simp

lemma releaseRep_getD_ne (heap : List (Option StringNode)) (nid m : Nat) (h : nid ≠ m) :
    ((releaseRep heap nid)[m]?).getD none = (heap[m]?).getD none := by
  cases hg : (heap[nid]?).getD none with
  | none => unfold releaseRep; rw [hg]
  | some node =>
    rw [releaseRep_of_some heap nid node hg]
    split_ifs <;> exact getD_set_ne _ _ _ _ _ h

lemma releaseRep_dec (heap : List (Option StringNode)) (nid : Nat) (node : StringNode)
    (hg : (heap[nid]?).getD none = some node) (hc : 1 < node.count) :
    ((releaseRep heap nid)[nid]?).getD none
      = some { node with count := node.count - 1 } := by
  rw [releaseRep_of_some heap nid node hg, if_pos hc]
  exact getD_set_self _ _ _ _ (lt_length_of_getD_some _ _ _ hg)

lemma releaseRep_free (heap : List (Option StringNode)) (nid : Nat) (node : StringNode)
    (hg : (heap[nid]?).getD none = some node) (hc : ¬ 1 < node.count) :
    ((releaseRep heap nid)[nid]?).getD none = none := by
  rw [releaseRep_of_some heap nid node hg, if_neg hc]
  exact getD_set_self _ _ _ _ (lt_length_of_getD_some _ _ _ hg)

lemma copyConstruct_eq (st : StrState) (src nid : Nat) (node : StringNode)
    (hs : nidOf st src = some nid) (hn : nodeAt st nid = some node) :
    copyConstruct st src =
      { heap := st.heap.set nid (some { node with count := node.count + 1 }),
        handles := st.handles ++ [some nid] } := by
  simp only [copyConstruct, hs, hn]

lemma assignRexx_eq (st : StrState) (dst src dnid snid : Nat) (snode : StringNode)
    (hds : dst ≠ src) (hd : nidOf st dst = some dnid) (hs : nidOf st src = some snid)
    (h1 : ((releaseRep st.heap dnid)[snid]?).getD none = some snode) :
    assignRexx st dst src =
      { heap := (releaseRep st.heap dnid).set snid
          (some { snode with count := snode.count + 1 }),
        handles := st.handles.set dst (some snid) } := by
  simp only [assignRexx, if_neg hds, hd, hs, h1]

lemma appendChar_eq (st : StrState) (h nid : Nat) (node : StringNode) (c : Char)
    (hh : nidOf st h = some nid) (hn : nodeAt st nid = some node) :
    appendChar st h c true =
      ({ heap := releaseRep
           (st.heap ++ [some { count := 1, workspace := node.workspace ++ [c] }]) nid,
         handles := st.handles.set h (some st.heap.length) }, true) := by
  simp only [appendChar, hh, hn, if_pos]

lemma appendRexx_eq (st : StrState) (h src nid snid : Nat) (node snode : StringNode)
    (hh : nidOf st h = some nid) (hs : nidOf st src = some snid)
    (hn : nodeAt st nid = some node) (hsn : nodeAt st snid = some snode) :
    appendRexx st h src true =
      ({ heap := releaseRep
           (st.heap ++ [some { count := 1, workspace := node.workspace ++ snode.workspace }])
           nid,
         handles := st.handles.set h (some st.heap.length) }, true) := by
  simp only [appendRexx, hh, hs, hn, hsn, if_pos]

lemma releaseRep_of_none (heap : List (Option StringNode)) (nid : Nat)
    (hg : (heap[nid]?).getD none = none) : releaseRep heap nid = heap := by
  unfold releaseRep
  rw [hg]

lemma destruct_eq (st : StrState) (h nid : Nat) (hh : nidOf st h = some nid) :
    destruct st h =
      { heap := releaseRep st.heap nid, handles := st.handles.set h none } := by
  simp only [destruct, hh]

lemma refOK_copyConstruct (st : StrState) (src : Nat) (hinv : RefOK st) :
    RefOK (copyConstruct st src) := by
  cases hs : nidOf st src with
  | none => simp only [copyConstruct, hs]; exact hinv
  | some nid =>
    cases hn : nodeAt st nid with
    | none => simp only [copyConstruct, hs, hn]; exact hinv
    | some node =>
      rw [copyConstruct_eq st src nid node hs hn]
      have hlt : nid < st.heap.length := lt_length_of_getD_some _ _ _ hn
      intro m
      rw [nodeOKb_iff]
      intro node2 hm2
      simp only [nodeAt] at hm2
      simp only [countRefs, count_append_single]
      by_cases hm : m = nid
      · subst hm
        rw [getD_set_self _ _ _ _ hlt] at hm2
        injection hm2 with hm2
        obtain ⟨h1, h2⟩ := refOK_elim st m node hinv hn
        simp only [countRefs] at h1
        simp only [beq_self_eq_true, if_true]
        rw [← hm2]
        dsimp only
        omega
      · have hne : nid ≠ m := fun hh => hm hh.symm
        rw [getD_set_ne _ _ _ _ _ hne] at hm2
        obtain ⟨h1, h2⟩ := refOK_elim st m node2 hinv hm2
        simp only [countRefs] at h1
        have hif : (some nid == some m) = false := by simp [hne]
        rw [hif]
        simp only [Bool.false_eq_true, if_false]
        omega

lemma refOK_destruct (st : StrState) (h : Nat) (hinv : RefOK st) :
    RefOK (destruct st h) := by
  cases hh : nidOf st h with
  | none => simp only [destruct, hh]; exact hinv
  | some nid =>
    rw [destruct_eq st h nid hh]
    intro m
    rw [nodeOKb_iff]
    intro node2 hm2
    simp only [nodeAt] at hm2
    have hw : st.handles[h]? = some (some nid) := getD_some_elim _ _ _ hh
    have hcount := count_set_eq st.handles h none (some nid) (some m) hw
    simp only [countRefs]
    by_cases hm : m = nid
    · subst hm
      cases hn : nodeAt st m with
      | none =>
        rw [releaseRep_of_none st.heap m hn] at hm2
        unfold nodeAt at hn
        rw [hn] at hm2
        cases hm2
      | some node =>
        obtain ⟨h1, h2⟩ := refOK_elim st m node hinv hn
        simp only [countRefs] at h1
        simp only [beq_self_eq_true, if_true] at hcount
        have hif0 : ((none : Option Nat) == some m) = false := by simp
        rw [hif0] at hcount
        simp only [Bool.false_eq_true, if_false] at hcount
        by_cases hc : 1 < node.count
        · rw [releaseRep_dec st.heap m node hn hc] at hm2
          injection hm2 with hm2
          rw [← hm2]
          dsimp only
          constructor
          · omega
          · omega
        · rw [releaseRep_free st.heap m node hn hc] at hm2
          cases hm2
    · have hne : nid ≠ m := fun hh2 => hm hh2.symm
      rw [releaseRep_getD_ne st.heap nid m hne] at hm2
      obtain ⟨h1, h2⟩ := refOK_elim st m node2 hinv hm2
      simp only [countRefs] at h1
      have hif1 : (some nid == some m) = false := by simp [hne]
      have hif0 : ((none : Option Nat) == some m) = false := by simp
      rw [hif1, hif0] at hcount
      simp only [Bool.false_eq_true, if_false] at hcount
      omega

lemma refOK_assignRexx (st : StrState) (dst src : Nat) (hinv : RefOK st) :
    RefOK (assignRexx st dst src) := by
  by_cases hds : dst = src
  · unfold assignRexx
    rw [if_pos hds]
    exact hinv
  cases hd : nidOf st dst with
  | none =>
    cases hs : nidOf st src with
    | none => simp only [assignRexx, if_neg hds, hd, hs]; exact hinv
    | some snid => simp only [assignRexx, if_neg hds, hd, hs]; exact hinv
  | some dnid =>
    cases hs : nidOf st src with
    | none => simp only [assignRexx, if_neg hds, hd, hs]; exact hinv
    | some snid =>
      cases h1 : ((releaseRep st.heap dnid)[snid]?).getD none with
      | none => simp only [assignRexx, if_neg hds, hd, hs, h1]; exact hinv
      | some snode =>
        rw [assignRexx_eq st dst src dnid snid snode hds hd hs h1]
        have hsnid_lt : snid < st.heap.length := by
          have := lt_length_of_getD_some _ _ _ h1
          rwa [releaseRep_length] at this
        intro m
        rw [nodeOKb_iff]
        intro node2 hm2
        simp only [nodeAt] at hm2
        have hw : st.handles[dst]? = some (some dnid) := getD_some_elim _ _ _ hd
        have hcount := count_set_eq st.handles dst (some snid) (some dnid) (some m) hw
        simp only [countRefs]
        by_cases hm : m = snid
        · subst hm
          have hlt2 : m < (releaseRep st.heap dnid).length := by
            rwa [releaseRep_length]
          rw [getD_set_self _ _ _ _ hlt2] at hm2
          injection hm2 with hm2
          rw [← hm2]
          simp only [beq_self_eq_true, if_true] at hcount
          by_cases hdn : dnid = m
          · subst hdn
            simp only [beq_self_eq_true, if_true] at hcount
            cases hn : nodeAt st dnid with
            | none =>
              rw [releaseRep_of_none st.heap dnid hn] at h1
              unfold nodeAt at hn
              rw [hn] at h1
              cases h1
            | some dnode =>
              obtain ⟨hc1, hc2⟩ := refOK_elim st dnid dnode hinv hn
              simp only [countRefs] at hc1
              by_cases hc : 1 < dnode.count
              · rw [releaseRep_dec st.heap dnid dnode hn hc] at h1
                injection h1 with h1
                rw [← h1]
                dsimp only
                constructor
                · omega
                · omega
              · rw [releaseRep_free st.heap dnid dnode hn hc] at h1
                cases h1
          · have hdn2 : (some dnid == some m) = false := by simp [hdn]
            rw [hdn2] at hcount
            simp only [Bool.false_eq_true, if_false] at hcount
            rw [releaseRep_getD_ne st.heap dnid m hdn] at h1
            obtain ⟨hc1, hc2⟩ := refOK_elim st m snode hinv h1
            simp only [countRefs] at hc1
            dsimp only
            constructor
            · omega
            · omega
        · have hne : snid ≠ m := fun hh => hm hh.symm
          rw [getD_set_ne _ _ _ _ _ hne] at hm2
          have hifs : (some snid == some m) = false := by simp [hne]
          rw [hifs] at hcount
          simp only [Bool.false_eq_true, if_false] at hcount
          by_cases hdm : dnid = m
          · subst hdm
            simp only [beq_self_eq_true, if_true] at hcount
            cases hn : nodeAt st dnid with
            | none =>
              rw [releaseRep_of_none st.heap dnid hn] at hm2
              unfold nodeAt at hn
              rw [hn] at hm2
              cases hm2
            | some dnode =>
              obtain ⟨hc1, hc2⟩ := refOK_elim st dnid dnode hinv hn
              simp only [countRefs] at hc1
              by_cases hc : 1 < dnode.count
              · rw [releaseRep_dec st.heap dnid dnode hn hc] at hm2
                injection hm2 with hm2
                rw [← hm2]
                dsimp only
                constructor
                · omega
                · omega
              · rw [releaseRep_free st.heap dnid dnode hn hc] at hm2
                cases hm2
          · have hdm2 : (some dnid == some m) = false := by simp [hdm]
            rw [hdm2] at hcount
            simp only [Bool.false_eq_true, if_false] at hcount
            rw [releaseRep_getD_ne st.heap dnid m hdm] at hm2
            obtain ⟨hc1, hc2⟩ := refOK_elim st m node2 hinv hm2
            simp only [countRefs] at hc1
            omega

lemma sub1_of_pos (p : Nat) (hp : 1 ≤ p) : sub1 p = p - 1 := by
  unfold sub1
  rw [if_neg (by omega)]

lemma strchrIdx_not_mem (l : List Char) (h : nullChar ∉ l) :
    RexxString.strchrIdx l nullChar = some l.length := by
  induction l with
  | nil => simp [RexxString.strchrIdx]
  | cons c rest ih =>
    have hc : ¬ c = nullChar := fun hc => h (hc ▸ List.mem_cons_self c rest)
    have hrest : nullChar ∉ rest := fun hm => h (List.mem_cons_of_mem c hm)
    simp [RexxString.strchrIdx, hc, ih hrest]

/-! The claims. -/

/-- C3: on an out-of-memory failure every mutating operation — `append` in
all forms, the no-argument `erase`, and assignment from a C-string — leaves
the whole program state exactly as it was, because each of them performs
all allocation before releasing the old buffer; the false flag records the
propagated `std::bad_alloc`. -/
theorem claim_C3_strong_exception_safety :
    (∀ st h c, appendChar st h c false = (st, false))
    ∧ (∀ st h src, appendRexx st h src false = (st, false))
    ∧ (∀ st h, eraseEmpty st h false = (st, false))
    ∧ (∀ st h text, assignCString st h (some text) false = (st, false)) := by
  refine ⟨?_, ?_, ?_, ?_⟩
  · intro st h c
    cases hn : nidOf st h with
    | none => simp [appendChar, hn]
    | some nid =>
      cases hm : nodeAt st nid with
      | none => simp [appendChar, hn, hm]
      | some node => simp [appendChar, hn, hm]
  · intro st h src
    cases hn : nidOf st h with
    | none => simp [appendRexx, hn]
    | some nid =>
      cases hsrc : nidOf st src with
      | none => simp [appendRexx, hn, hsrc]
      | some snid =>
        cases hm : nodeAt st nid with
        | none => simp [appendRexx, hn, hsrc, hm]
        | some node =>
          cases hsm : nodeAt st snid with
          | none => simp [appendRexx, hn, hsrc, hm, hsm]
          | some snode => simp [appendRexx, hn, hsrc, hm, hsm]
  · intro st h
    cases hn : nidOf st h with
    | none => simp [eraseEmpty, hn]
    | some nid => simp [eraseEmpty, hn]
  · intro st h text
    cases hn : nidOf st h with
    | none => simp [assignCString, hn]
    | some nid => simp [assignCString, hn]

/-- C1: immediately after the copy assignment `b = a` the two handles
compare equal through `operator==`, reference the same node, and no new
buffer was allocated (the heap has the same length and the value of `a` is
the same buffer content); after the subsequent `b.append( char )` the
value of `a` is unchanged from before the append while `b` holds the
appended value, so `a != b` (`operator==` returns false); copy
construction shares the source node in the same way. -/
theorem claim_C1_copy_on_write (st : StrState) (a b : Nat) (va vb : List Char)
    (hinv : RefOK st) (hab : a ≠ b)
    (ha : valOf st a = some va) (hb : valOf st b = some vb) :
    rexxEq (assignRexx st b a) a b = true
    ∧ nidOf (assignRexx st b a) b = nidOf st a
    ∧ nidOf (assignRexx st b a) a = nidOf st a
    ∧ (assignRexx st b a).heap.length = st.heap.length
    ∧ valOf (assignRexx st b a) a = some va
    ∧ valOf ((appendChar (assignRexx st b a) b 'x' true).1) a = some va
    ∧ valOf ((appendChar (assignRexx st b a) b 'x' true).1) b = some (va ++ ['x'])
    ∧ rexxEq ((appendChar (assignRexx st b a) b 'x' true).1) a b = false
    ∧ rexxEq (copyConstruct st a) a st.handles.length = true
    ∧ nidOf (copyConstruct st a) st.handles.length = nidOf st a
    ∧ (copyConstruct st a).heap.length = st.heap.length := by
  obtain ⟨na, nodeA, hna, hnodeA, hwa⟩ := valOf_elim st a va ha
  obtain ⟨nb, nodeB, hnb, hnodeB, hwb⟩ := valOf_elim st b vb hb
  have ha_lt : a < st.handles.length := lt_length_of_getD_some _ _ _ hna
  have hb_lt : b < st.handles.length := lt_length_of_getD_some _ _ _ hnb
  have hna_lt : na < st.heap.length := lt_length_of_getD_some _ _ _ hnodeA
  have hsn : ∃ snode : StringNode,
      ((releaseRep st.heap nb)[na]?).getD none = some snode
        ∧ snode.workspace = va ∧ 1 ≤ snode.count := by
    by_cases hnn : nb = na
    · subst hnn
      obtain ⟨h1, h2⟩ := refOK_elim st nb nodeA hinv hnodeA
      have h2c : 2 ≤ countRefs st nb := countRefs_two st a b nb hab hna hnb
      have hc : 1 < nodeA.count := by
        simp only [countRefs] at h1
        simp only [countRefs] at h2c
        omega
      exact ⟨{ nodeA with count := nodeA.count - 1 },
             releaseRep_dec st.heap nb nodeA hnodeA hc, hwa, by dsimp only; omega⟩
    · refine ⟨nodeA, ?_, hwa, (refOK_elim st na nodeA hinv hnodeA).2⟩
      rw [releaseRep_getD_ne st.heap nb na hnn]
      exact hnodeA
  obtain ⟨snode, hs1, hsw, hsc⟩ := hsn
  have hassign := assignRexx_eq st b a nb na snode (Ne.symm hab) hnb hna hs1
  have hn1a : nidOf (assignRexx st b a) a = some na := by
    rw [hassign]
    exact (getD_set_ne st.handles b a (some na) none (Ne.symm hab)).trans hna
  have hn1b : nidOf (assignRexx st b a) b = some na := by
    rw [hassign]
    exact getD_set_self st.handles b (some na) none hb_lt
  have hna1 : nodeAt (assignRexx st b a) na
      = some { snode with count := snode.count + 1 } := by
    rw [hassign]
    exact getD_set_self (releaseRep st.heap nb) na _ none
      (by rw [releaseRep_length]; exact hna_lt)
  have hlen1 : (assignRexx st b a).heap.length = st.heap.length := by
    rw [hassign]
    dsimp only
    rw [List.length_set, releaseRep_length]
  have hval1a : valOf (assignRexx st b a) a = some va := by
    rw [valOf_intro (assignRexx st b a) a na _ hn1a hna1]
    dsimp only
    rw [hsw]
  have hb_lt1 : b < (assignRexx st b a).handles.length := by
    rw [hassign]
    dsimp only
    rw [List.length_set]
    exact hb_lt
  have hna_lt1 : na < (assignRexx st b a).heap.length := by
    rw [hlen1]
    exact hna_lt
  have happ := appendChar_eq (assignRexx st b a) b na { count := snode.count + 1, workspace := snode.workspace } 'x' hn1b hna1
  have hn2a : nidOf ((appendChar (assignRexx st b a) b 'x' true).1) a = some na := by
    rw [happ]
    exact (getD_set_ne (assignRexx st b a).handles b a _ none (Ne.symm hab)).trans hn1a
  have hn2b : nidOf ((appendChar (assignRexx st b a) b 'x' true).1) b
      = some (assignRexx st b a).heap.length := by
    rw [happ]
    exact getD_set_self (assignRexx st b a).handles b _ none hb_lt1
  have hne_nid : na ≠ (assignRexx st b a).heap.length := by
    rw [hlen1]
    omega
  have hgap : (((assignRexx st b a).heap ++ [some { count := 1, workspace := ({ count := snode.count + 1, workspace := snode.workspace } : StringNode).workspace ++ ['x'] }])[na]?).getD none = some { count := snode.count + 1, workspace := snode.workspace } := by
    rw [getD_append_left _ _ na none hna_lt1]
    exact hna1
  have hcgt : (1 : Nat) < snode.count + 1 := by omega
  have hnode2a : nodeAt ((appendChar (assignRexx st b a) b 'x' true).1) na = some { count := snode.count + 1 - 1, workspace := snode.workspace } := by
    rw [happ]
    exact releaseRep_dec _ na { count := snode.count + 1, workspace := snode.workspace } hgap hcgt
  have hval2a : valOf ((appendChar (assignRexx st b a) b 'x' true).1) a = some va := by
    rw [valOf_intro _ a na _ hn2a hnode2a]
    dsimp only
    rw [hsw]
  have hnode2new : nodeAt ((appendChar (assignRexx st b a) b 'x' true).1) (assignRexx st b a).heap.length = some { count := 1, workspace := snode.workspace ++ ['x'] } := by
    rw [happ]
    have step1 := releaseRep_getD_ne ((assignRexx st b a).heap ++ [some { count := 1, workspace := ({ count := snode.count + 1, workspace := snode.workspace } : StringNode).workspace ++ ['x'] }]) na (assignRexx st b a).heap.length hne_nid
    have step2 := getD_append_len (assignRexx st b a).heap (some { count := 1, workspace := ({ count := snode.count + 1, workspace := snode.workspace } : StringNode).workspace ++ ['x'] }) none
    exact step1.trans step2
  have hval2b : valOf ((appendChar (assignRexx st b a) b 'x' true).1) b
      = some (va ++ ['x']) := by
    rw [valOf_intro _ b (assignRexx st b a).heap.length _ hn2b hnode2new]
    dsimp only
    rw [hsw]
  have hvane : ¬ (va = va ++ ['x']) := by
    intro hEq
    have := congrArg List.length hEq
    simp at this
  have hfalse : rexxEq ((appendChar (assignRexx st b a) b 'x' true).1) a b = false := by
    simp only [rexxEq, hn2a, hn2b, hnode2a, hnode2new]
    rw [if_neg hne_nid]
    dsimp only
    rw [hsw]
    exact decide_eq_false hvane
  have hcc := copyConstruct_eq st a na nodeA hna hnodeA
  have hn3t : nidOf (copyConstruct st a) st.handles.length = some na := by
    rw [hcc]
    exact getD_append_len st.handles (some na) none
  have hn3a : nidOf (copyConstruct st a) a = some na := by
    rw [hcc]
    exact (getD_append_left st.handles _ a none ha_lt).trans hna
  refine ⟨?_, ?_, ?_, hlen1, hval1a, hval2a, hval2b, hfalse, ?_, ?_, ?_⟩
  · simp [rexxEq, hn1a, hn1b]
  · rw [hn1b, hna]
  · rw [hn1a, hna]
  · simp [rexxEq, hn3a, hn3t]
  · rw [hn3t, hna]
  · rw [hcc]
    dsimp only
    rw [List.length_set]

theorem claim_C1_witness :
    rexxEq (assignRexx demoState 1 0) 0 1 = true
    ∧ valOf ((appendChar (assignRexx demoState 1 0) 1 'x' true).1) 0
        = some "hi".toList
    ∧ valOf ((appendChar (assignRexx demoState 1 0) 1 'x' true).1) 1
        = some ("hi".toList ++ ['x'])
    ∧ rexxEq ((appendChar (assignRexx demoState 1 0) 1 'x' true).1) 0 1 = false := by
  have h := claim_C1_copy_on_write demoState 0 1 "hi".toList "yo".toList
    (refOK_of_forall_lt _ (by decide)) (by decide) (by decide) (by decide)
  exact ⟨h.1, h.2.2.2.2.2.1, h.2.2.2.2.2.2.1, h.2.2.2.2.2.2.2.1⟩

/-- C2: the reference-count invariant — every live `string_node` has a
`count` equal to the number of handles whose `rep` points at it, and at
least one — is preserved by copy construction, destruction and
reassignment; copy construction increments the source node count; a
destructor on a node referenced at least twice decrements its count; and
destruction frees the node exactly when the destroyed handle was the last
reference. -/
theorem claim_C2_refcount_invariant (st : StrState) (hinv : RefOK st) :
    (∀ src, RefOK (copyConstruct st src))
    ∧ (∀ h, RefOK (destruct st h))
    ∧ (∀ dst src, RefOK (assignRexx st dst src))
    ∧ (∀ src nid node, nidOf st src = some nid → nodeAt st nid = some node →
        nodeAt (copyConstruct st src) nid = some { node with count := node.count + 1 }
          ∧ node.count = countRefs st nid ∧ 1 ≤ node.count)
    ∧ (∀ h nid node, nidOf st h = some nid → nodeAt st nid = some node →
        2 ≤ countRefs st nid →
        nodeAt (destruct st h) nid = some { node with count := node.count - 1 })
    ∧ (∀ h nid node, nidOf st h = some nid → nodeAt st nid = some node →
        (nodeAt (destruct st h) nid = none ↔ countRefs st nid = 1)) := by
  refine ⟨fun src => refOK_copyConstruct st src hinv,
          fun h => refOK_destruct st h hinv,
          fun dst src => refOK_assignRexx st dst src hinv, ?_, ?_, ?_⟩
  · intro src nid node hs hn
    obtain ⟨h1, h2⟩ := refOK_elim st nid node hinv hn
    refine ⟨?_, h1, h2⟩
    rw [copyConstruct_eq st src nid node hs hn]
    exact getD_set_self st.heap nid (some { node with count := node.count + 1 }) none
      (lt_length_of_getD_some _ _ _ hn)
  · intro h nid node hh hn h2c
    obtain ⟨h1, h2⟩ := refOK_elim st nid node hinv hn
    rw [destruct_eq st h nid hh]
    have hc : 1 < node.count := by omega
    exact releaseRep_dec st.heap nid node hn hc
  · intro h nid node hh hn
    obtain ⟨h1, h2⟩ := refOK_elim st nid node hinv hn
    rw [destruct_eq st h nid hh]
    by_cases hone : countRefs st nid = 1
    · have hc : ¬ 1 < node.count := by omega
      simp only [hone, iff_true]
      exact releaseRep_free st.heap nid node hn hc
    · have hc : 1 < node.count := by omega
      have hd2 : nodeAt { heap := releaseRep st.heap nid, handles := st.handles.set h none } nid = some { node with count := node.count - 1 } :=
        releaseRep_dec st.heap nid node hn hc
      constructor
      · intro hnone
        rw [hd2] at hnone
        cases hnone
      · intro h1eq
        exact absurd h1eq hone

theorem claim_C2_witness :
    RefOK (copyConstruct demoShared 0)
    ∧ RefOK (assignRexx demoShared 2 0)
    ∧ (nodeAt (destruct demoShared 2) 1 = none ↔ countRefs demoShared 1 = 1)
    ∧ nodeAt (destruct demoShared 0) 0
        = some { count := 2 - 1, workspace := "hi".toList } := by
  have h := claim_C2_refcount_invariant demoShared (refOK_of_forall_lt _ (by decide))
  refine ⟨h.1 0, h.2.2.1 2 0,
    h.2.2.2.2.2 2 1 { count := 1, workspace := [] } (by decide) (by decide), ?_⟩
  exact h.2.2.2.2.1 0 0 { count := 2, workspace := "hi".toList }
    (by decide) (by decide) (by decide)

/-- C8: assigning a null C-string pointer is a complete no-op — the state
(value, buffer reference, reference count) is returned unchanged and no
error is signalled. -/
theorem claim_C8_null_assignment_noop :
    ∀ st h allocOk, assignCString st h none allocOk = (st, true) := by
  intro st h allocOk
  rfl

/-- C4: `insert` places the first `count` characters of `other` (with
`count` clamped to the length of `other`) before 1-based position `p` of
`T`; position `length + 1` appends, position further beyond the end,
position zero (which wraps to a huge unsigned offset) and a zero count all
return `T` unchanged; the concrete example of the specification holds. -/
theorem claim_C4_insert (T other : List Char) (hT : T.length < SIZE_MAX) :
    (∀ p count, 1 ≤ p → p ≤ T.length + 1 →
        RexxString.insert T other p count
          = T.take (p - 1) ++ other.take (min count other.length) ++ T.drop (p - 1))
    ∧ (∀ count, RexxString.insert T other (T.length + 1) count
          = T ++ other.take (min count other.length))
    ∧ (∀ p count, T.length + 1 < p → RexxString.insert T other p count = T)
    ∧ (∀ count, RexxString.insert T other 0 count = T)
    ∧ (∀ p, RexxString.insert T other p 0 = T)
    ∧ RexxString.insert "Junk".toList "xxxx".toList 2 3 = "Jxxxunk".toList := by
  have key : ∀ p count, 1 ≤ p → p ≤ T.length + 1 →
      RexxString.insert T other p count
        = T.take (p - 1) ++ other.take (min count other.length) ++ T.drop (p - 1) := by
    intro p count h1 h2
    simp only [RexxString.insert, sub1_of_pos p h1]
    by_cases hc : count = 0
    · subst hc
      rw [if_pos (Or.inr rfl)]
      simp [List.take_append_drop]
    · rw [if_neg (by omega)]
      have hmin : (if count > other.length then other.length else count)
          = min count other.length := by
        rw [Nat.min_def]
        split_ifs <;> omega
      rw [hmin]
  refine ⟨key, ?_, ?_, ?_, ?_, by decide⟩
  · intro count
    have h := key (T.length + 1) count (by omega) (by omega)
    simpa using h
  · intro p count hp
    simp only [RexxString.insert, sub1_of_pos p (by omega)]
    rw [if_pos (Or.inl (by omega))]
  · intro count
    have h0 : sub1 0 = SIZE_MAX := rfl
    simp only [RexxString.insert, h0]
    rw [if_pos (Or.inl hT)]
  · intro p
    simp [RexxString.insert]

theorem claim_C4_witness :
    RexxString.insert "Junk".toList "xxxx".toList 2 3 = "Jxxxunk".toList :=
  (claim_C4_insert "Junk".toList "xxxx".toList (by decide)).2.2.2.2.2

/-- C5: `substr` starting just past the end returns the empty string for
any count; `erase` from position one with a count of at least the length
returns the empty string; in general a count exceeding the remaining text
is clamped to exactly what remains — `substr` then yields everything from
the offset on, `erase` everything before it — and no input is an error. -/
theorem claim_C5_clamp (T : List Char) :
    (∀ count, RexxString.substr T (T.length + 1) count = [])
    ∧ (∀ count, T.length ≤ count → RexxString.erase T 1 count = [])
    ∧ (∀ p count, 1 ≤ p → T.length ≤ p - 1 + count →
        RexxString.substr T p count = T.drop (p - 1))
    ∧ (∀ p count, 1 ≤ p → T.length ≤ p - 1 + count →
        RexxString.erase T p count = T.take (p - 1)) := by
  have key_substr : ∀ p count, 1 ≤ p → T.length ≤ p - 1 + count →
      RexxString.substr T p count = T.drop (p - 1) := by
    intro p count h1 h2
    simp only [RexxString.substr, sub1_of_pos p h1]
    by_cases hoff : p - 1 ≥ T.length
    · rw [if_pos hoff, List.drop_eq_nil_of_le hoff]
    · rw [if_neg hoff]
      have hc2 : (if count > T.length - (p - 1) then T.length - (p - 1) else count)
          = T.length - (p - 1) := by
        split_ifs <;> omega
      rw [hc2]
      apply List.take_of_length_le
      simp [List.length_drop]
  have key_erase : ∀ p count, 1 ≤ p → T.length ≤ p - 1 + count →
      RexxString.erase T p count = T.take (p - 1) := by
    intro p count h1 h2
    simp only [RexxString.erase, sub1_of_pos p h1]
    by_cases hoff : p - 1 ≥ T.length ∨ count = 0
    · rw [if_pos hoff]
      have hlen : T.length ≤ p - 1 := by omega
      rw [List.take_of_length_le hlen]
    · rw [if_neg hoff]
      have hc2 : (if count > T.length - (p - 1) then T.length - (p - 1) else count)
          = T.length - (p - 1) := by
        split_ifs <;> omega
      rw [hc2]
      have hsum : p - 1 + (T.length - (p - 1)) = T.length := by omega
      rw [hsum, List.drop_length, List.append_nil]
  refine ⟨?_, ?_, key_substr, key_erase⟩
  · intro count
    have h := key_substr (T.length + 1) count (by omega) (by omega)
    simpa using h
  · intro count hcount
    have h := key_erase 1 count (by omega) (by omega)
    simpa using h

theorem claim_C5_witness :
    RexxString.substr "Junk".toList ("Junk".toList.length + 1) 7 = []
    ∧ RexxString.erase "Junk".toList 1 99 = [] := by
  have h := claim_C5_clamp "Junk".toList
  exact ⟨h.1 7, h.2.1 99 (by decide)⟩

/-- C6: when the requested length does not exceed the current length,
`center` coincides with `left`; otherwise the result has exactly the
requested length, carries `(len - n) / 2` pad characters on the left and
the remaining `len - n - (len - n) / 2` on the right — so an odd amount of
padding puts the extra pad character on the right — and the concrete
example of the specification holds. -/
theorem claim_C6_center (T : List Char) (len : Nat) (pad : Char) :
    (len ≤ T.length → RexxString.center T len pad = RexxString.left T len pad)
    ∧ (T.length < len →
        RexxString.center T len pad
            = List.replicate ((len - T.length) / 2) pad ++ T
              ++ List.replicate (len - T.length - (len - T.length) / 2) pad
          ∧ (RexxString.center T len pad).length = len
          ∧ ((len - T.length) % 2 = 1 →
              len - T.length - (len - T.length) / 2 = (len - T.length) / 2 + 1))
    ∧ RexxString.center "Junk".toList 11 '-' = "---Junk----".toList := by
  refine ⟨?_, ?_, by decide⟩
  · intro h
    simp only [RexxString.center]
    rw [if_pos h]
  · intro h
    have heq : RexxString.center T len pad
        = List.replicate ((len - T.length) / 2) pad ++ T
          ++ List.replicate (len - T.length - (len - T.length) / 2) pad := by
      simp only [RexxString.center]
      rw [if_neg (by omega)]
    refine ⟨heq, ?_, fun _ => by omega⟩
    rw [heq]
    simp only [List.length_append, List.length_replicate]
    omega

theorem claim_C6_witness :
    RexxString.center "Junk".toList 11 '-' = "---Junk----".toList
    ∧ RexxString.center "Junk".toList 2 '-' = RexxString.left "Junk".toList 2 '-' :=
  ⟨(claim_C6_center "Junk".toList 11 '-').2.2,
   (claim_C6_center "Junk".toList 2 '-').1 (by decide)⟩

/-- C7: `substr` recovers each operand of a concatenation — the first
`A.length` characters of `A ++ B` equal `A` and the `B.length` characters
from position `A.length + 1` equal `B`; and the `operator+` sequence (copy
construction of a temporary from the left operand followed by appending
the right operand to it) leaves the values of both operands unchanged
while the temporary holds the concatenation. -/
theorem claim_C7_concat (A B : List Char) (st : StrState) (a b : Nat)
    (hinv : RefOK st) (ha : valOf st a = some A) (hb : valOf st b = some B) :
    RexxString.substr (A ++ B) 1 A.length = A
    ∧ RexxString.substr (A ++ B) (A.length + 1) B.length = B
    ∧ valOf ((appendRexx (copyConstruct st a) st.handles.length b true).1) a = some A
    ∧ valOf ((appendRexx (copyConstruct st a) st.handles.length b true).1) b = some B
    ∧ valOf ((appendRexx (copyConstruct st a) st.handles.length b true).1)
        st.handles.length = some (A ++ B) := by
  have part1 : RexxString.substr (A ++ B) 1 A.length = A := by
    simp only [RexxString.substr, show sub1 1 = 0 from rfl]
    by_cases hAB : (A ++ B).length = 0
    · rw [if_pos (by omega)]
      have hA : A = [] := by
        rw [List.length_append] at hAB
        exact List.eq_nil_of_length_eq_zero (by omega)
      rw [hA]
    · rw [if_neg (by omega)]
      have hc : ¬ (A.length > (A ++ B).length - 0) := by
        rw [List.length_append]
        omega
      rw [if_neg hc, List.drop_zero, List.take_left]
  have part2 : RexxString.substr (A ++ B) (A.length + 1) B.length = B := by
    have hs : sub1 (A.length + 1) = A.length :=
      (sub1_of_pos _ (by omega)).trans (by omega)
    simp only [RexxString.substr, hs]
    by_cases hB0 : B.length = 0
    · rw [if_pos (by rw [List.length_append]; omega)]
      have hBnil : B = [] := List.eq_nil_of_length_eq_zero hB0
      rw [hBnil]
    · rw [if_neg (by rw [List.length_append]; omega)]
      have hc : ¬ (B.length > (A ++ B).length - A.length) := by
        rw [List.length_append]
        omega
      rw [if_neg hc, List.drop_left]
      exact List.take_length B
  obtain ⟨na, nodeA, hna, hnodeA, hwa⟩ := valOf_elim st a A ha
  obtain ⟨nb, nodeB, hnb, hnodeB, hwb⟩ := valOf_elim st b B hb
  have ha_lt : a < st.handles.length := lt_length_of_getD_some _ _ _ hna
  have hb_lt : b < st.handles.length := lt_length_of_getD_some _ _ _ hnb
  have hna_lt : na < st.heap.length := lt_length_of_getD_some _ _ _ hnodeA
  have hnb_lt : nb < st.heap.length := lt_length_of_getD_some _ _ _ hnodeB
  have hcc := copyConstruct_eq st a na nodeA hna hnodeA
  have hlen1 : (copyConstruct st a).heap.length = st.heap.length := by
    rw [hcc]
    dsimp only
    rw [List.length_set]
  have hhlen1 : (copyConstruct st a).handles.length = st.handles.length + 1 := by
    rw [hcc]
    dsimp only
    rw [List.length_append]
    rfl
  have hn1t : nidOf (copyConstruct st a) st.handles.length = some na := by
    rw [hcc]
    exact getD_append_len st.handles (some na) none
  have hn1a : nidOf (copyConstruct st a) a = some na := by
    rw [hcc]
    exact (getD_append_left st.handles _ a none ha_lt).trans hna
  have hn1b : nidOf (copyConstruct st a) b = some nb := by
    rw [hcc]
    exact (getD_append_left st.handles _ b none hb_lt).trans hnb
  have hnode1na : nodeAt (copyConstruct st a) na = some { count := nodeA.count + 1, workspace := nodeA.workspace } := by
    rw [hcc]
    exact getD_set_self st.heap na _ none hna_lt
  have hAB_if : nb = na → nodeA.workspace = B := by
    intro hban
    have h2 := hnodeB
    rw [hban, hnodeA] at h2
    injection h2 with h2
    rw [h2]
    exact hwb
  have hnb1 : ∃ node1b : StringNode, nodeAt (copyConstruct st a) nb = some node1b ∧ node1b.workspace = B := by
    by_cases hban : nb = na
    · rw [hban]
      exact ⟨_, hnode1na, by dsimp only; exact hAB_if hban⟩
    · refine ⟨nodeB, ?_, hwb⟩
      rw [hcc]
      exact (getD_set_ne st.heap na nb _ none (fun hh => hban hh.symm)).trans hnodeB
  obtain ⟨node1b, hnode1nb, hw1b⟩ := hnb1
  have happ := appendRexx_eq (copyConstruct st a) st.handles.length b na nb { count := nodeA.count + 1, workspace := nodeA.workspace } node1b hn1t hn1b hnode1na hnode1nb
  have hne_nid : na ≠ (copyConstruct st a).heap.length := by
    rw [hlen1]
    omega
  have hna_lt1 : na < (copyConstruct st a).heap.length := by
    rw [hlen1]
    exact hna_lt
  have hnb_lt1 : nb < (copyConstruct st a).heap.length := by
    rw [hlen1]
    exact hnb_lt
  have ht_lt1 : st.handles.length < (copyConstruct st a).handles.length := by
    rw [hhlen1]
    omega
  have hn2a : nidOf ((appendRexx (copyConstruct st a) st.handles.length b true).1) a = some na := by
    rw [happ]
    exact (getD_set_ne (copyConstruct st a).handles st.handles.length a _ none (Ne.symm (Nat.ne_of_lt ha_lt))).trans hn1a
  have hn2b : nidOf ((appendRexx (copyConstruct st a) st.handles.length b true).1) b = some nb := by
    rw [happ]
    exact (getD_set_ne (copyConstruct st a).handles st.handles.length b _ none (Ne.symm (Nat.ne_of_lt hb_lt))).trans hn1b
  have hn2t : nidOf ((appendRexx (copyConstruct st a) st.handles.length b true).1) st.handles.length = some (copyConstruct st a).heap.length := by
    rw [happ]
    exact getD_set_self (copyConstruct st a).handles st.handles.length _ none ht_lt1
  obtain ⟨hcA, hcA1⟩ := refOK_elim st na nodeA hinv hnodeA
  have hgap : (((copyConstruct st a).heap ++ [some { count := 1, workspace := ({ count := nodeA.count + 1, workspace := nodeA.workspace } : StringNode).workspace ++ node1b.workspace }])[na]?).getD none = some { count := nodeA.count + 1, workspace := nodeA.workspace } := by
    rw [getD_append_left _ _ na none hna_lt1]
    exact hnode1na
  have hcgt : (1 : Nat) < nodeA.count + 1 := by omega
  have hnode2a : nodeAt ((appendRexx (copyConstruct st a) st.handles.length b true).1) na = some { count := nodeA.count + 1 - 1, workspace := nodeA.workspace } := by
    rw [happ]
    exact releaseRep_dec _ na { count := nodeA.count + 1, workspace := nodeA.workspace } hgap hcgt
  have hval2a : valOf ((appendRexx (copyConstruct st a) st.handles.length b true).1) a = some A := by
    rw [valOf_intro _ a na _ hn2a hnode2a]
    dsimp only
    rw [hwa]
  have hnode2b : ∃ node2b : StringNode, nodeAt ((appendRexx (copyConstruct st a) st.handles.length b true).1) nb = some node2b ∧ node2b.workspace = B := by
    by_cases hban : nb = na
    · rw [hban]
      exact ⟨_, hnode2a, by dsimp only; exact hAB_if hban⟩
    · refine ⟨node1b, ?_, hw1b⟩
      rw [happ]
      have s1 := releaseRep_getD_ne ((copyConstruct st a).heap ++ [some { count := 1, workspace := ({ count := nodeA.count + 1, workspace := nodeA.workspace } : StringNode).workspace ++ node1b.workspace }]) na nb (fun hh => hban hh.symm)
      have s2 := getD_append_left (copyConstruct st a).heap [some { count := 1, workspace := ({ count := nodeA.count + 1, workspace := nodeA.workspace } : StringNode).workspace ++ node1b.workspace }] nb none hnb_lt1
      exact s1.trans (s2.trans hnode1nb)
  obtain ⟨node2b, hnode2bb, hw2b⟩ := hnode2b
  have hval2b : valOf ((appendRexx (copyConstruct st a) st.handles.length b true).1) b = some B := by
    rw [valOf_intro _ b nb _ hn2b hnode2bb]
    rw [hw2b]
  have hnode2t : nodeAt ((appendRexx (copyConstruct st a) st.handles.length b true).1) (copyConstruct st a).heap.length = some { count := 1, workspace := ({ count := nodeA.count + 1, workspace := nodeA.workspace } : StringNode).workspace ++ node1b.workspace } := by
    rw [happ]
    have s1 := releaseRep_getD_ne ((copyConstruct st a).heap ++ [some { count := 1, workspace := ({ count := nodeA.count + 1, workspace := nodeA.workspace } : StringNode).workspace ++ node1b.workspace }]) na (copyConstruct st a).heap.length hne_nid
    have s2 := getD_append_len (copyConstruct st a).heap (some { count := 1, workspace := ({ count := nodeA.count + 1, workspace := nodeA.workspace } : StringNode).workspace ++ node1b.workspace }) none
    exact s1.trans s2
  have hval2t : valOf ((appendRexx (copyConstruct st a) st.handles.length b true).1) st.handles.length = some (A ++ B) := by
    rw [valOf_intro _ st.handles.length (copyConstruct st a).heap.length _ hn2t hnode2t]
    dsimp only
    rw [hwa, hw1b]
  exact ⟨part1, part2, hval2a, hval2b, hval2t⟩

theorem claim_C7_witness :
    RexxString.substr ("hi".toList ++ "yo".toList) 1 ("hi".toList.length) = "hi".toList
    ∧ valOf ((appendRexx (copyConstruct demoState 0) demoState.handles.length 1 true).1)
        demoState.handles.length = some ("hi".toList ++ "yo".toList) := by
  have h := claim_C7_concat "hi".toList "yo".toList demoState 0 1
    (refOK_of_forall_lt _ (by decide)) (by decide) (by decide)
  exact ⟨h.1, h.2.2.2.2⟩

/-- C10: searching for the null character with `pos` succeeds for every
starting position between one and `length + 1`, returning `length + 1`
(the 1-based position of the terminating null), because `strchr` can
locate the terminator; a starting position of zero (which wraps to a huge
unsigned offset) or beyond `length + 1` returns zero. -/
theorem claim_C10_pos_terminator (T : List Char) (hnul : nullChar ∉ T)
    (hlen : T.length < SIZE_MAX) :
    (∀ start, 1 ≤ start → start ≤ T.length + 1 →
        RexxString.pos T nullChar start = T.length + 1)
    ∧ RexxString.pos T nullChar 0 = 0
    ∧ (∀ start, T.length + 1 < start → RexxString.pos T nullChar start = 0) := by
  refine ⟨?_, ?_, ?_⟩
  · intro start h1 h2
    have hdrop : nullChar ∉ T.drop (start - 1) := fun hm => hnul (List.mem_of_mem_drop hm)
    simp only [RexxString.pos, sub1_of_pos start h1]
    rw [if_neg (by omega), strchrIdx_not_mem _ hdrop]
    simp only [List.length_drop]
    omega
  · have h0 : sub1 0 = SIZE_MAX := rfl
    simp only [RexxString.pos, h0]
    rw [if_pos (by omega)]
  · intro start hgt
    simp only [RexxString.pos, sub1_of_pos start (by omega)]
    rw [if_pos (by omega)]

theorem claim_C10_witness :
    RexxString.pos "Junk".toList nullChar 5 = "Junk".toList.length + 1
    ∧ RexxString.pos "Junk".toList nullChar 0 = 0 := by
  have h := claim_C10_pos_terminator "Junk".toList (by decide) (by decide)
  exact ⟨h.1 5 (by decide) (by decide), h.2.1⟩

end SpicaRexx
